import Mathlib

/-!
Verification of the Loki image-compression batch engine (`pkg/processor`).

The Go sources are shallowly embedded: pure logic (option validation, quality
resolution, format detection, the bounded reader) is translated to computable
Lean functions; the stateful batch engine is modelled by explicit state
passing over an abstract filesystem, with a schedule parameter standing for
the nondeterministic order in which the worker pool's writes land.  Machine
integers (Go `int`/`int64`) are modelled by `Int` with explicit wraparound
where overflow matters.  Image decoding/encoding is delegated to external
codecs in the source and is therefore represented by oracle function
parameters; every control-flow decision of the Go code is kept.
-/

deriving instance DecidableEq for Except

namespace Loki

/-! ## Data model (`pkg/processor/processor.go`, types file) -/

/-- `ImageFormat` enumeration.  `webp` is referenced by `webp.go` and the
tests; the stale types file in the snapshot only lists the first two. -/
inductive ImageFormat
  | jpeg
  | png
  | webp
deriving DecidableEq, Repr

/-- The closed set of `image/png.CompressionLevel` constants of the Go
standard library (`DefaultCompression`, `NoCompression`, `BestSpeed`,
`BestCompression`). -/
inductive PNGCompressionLevel
  | defaultCompression
  | noCompression
  | bestSpeed
  | bestCompression
deriving DecidableEq, Repr

/-- Go `CompressionLevel` is an `int`; the named constants are
`CompressionLow = 0`, `CompressionMedium = 1`, `CompressionHigh = 2`, and any
other integer value is possible (the conversion functions have a `default`
branch for it). -/
def CompressionLow : Int := 0

def CompressionMedium : Int := 1

def CompressionHigh : Int := 2

/-- `CompressionLevel.ToJPEGQuality`: Low=60, Medium=75, High=90, anything
else falls through to 75. -/
def toJPEGQuality (c : Int) : Int :=
  if c = CompressionLow then 60
  else if c = CompressionMedium then 75
  else if c = CompressionHigh then 90
  else 75

/-- `CompressionLevel.ToPNGCompressionLevel`: Low=BestSpeed,
Medium=DefaultCompression, High=BestCompression, default DefaultCompression. -/
def toPNGCompressionLevel (c : Int) : PNGCompressionLevel :=
  if c = CompressionLow then .bestSpeed
  else if c = CompressionMedium then .defaultCompression
  else if c = CompressionHigh then .bestCompression
  else .defaultCompression

/-- Modelled from the spec: `CompressionLevel.ToWebPQuality` is called by
`webp.go` and pinned by `types_test.go` (Low=60, Medium=75, High=90, default
75, as a `float32`), but its definition is not in the source snapshot.  All
values are small integers, exactly representable in `float32`, so the result
is modelled as `Int`. -/
def toWebPQuality (c : Int) : Int :=
  if c = CompressionLow then 60
  else if c = CompressionMedium then 75
  else if c = CompressionHigh then 90
  else 75

/-- `CompressOptions`: quality override (`int`, 0 = unset), level (`int`),
preserve-metadata flag, max input size (`int64`, 0 = unbounded). -/
structure CompressOptions where
  quality : Int
  level : Int
  preserveMetadata : Bool
  maxFileSize : Int
deriving DecidableEq, Repr

/-- Error values a processor operation can surface.  Go wraps several of
these with `fmt.Errorf("...: %w", err)`; wrapping preserves identity under
`errors.Is`, so the wrapped cause is kept as the value. -/
inductive ProcErr
  | preserveMetadataNotSupported
  | negativeMaxFileSize
  | fileTooLarge
  | decodeFailed
  | encodeFailed
  | writeFailed
  | canceled
  | unsupportedExt (ext : List Char)
  | unsupportedFormatDispatch (f : ImageFormat)
  | formatMismatch (codec requested : ImageFormat)
  | openFailed
  | mkdirFailed
  | createFailed
deriving DecidableEq, Repr

/-- `CompressOptions.Validate` (`processor.go`). -/
def validate (o : CompressOptions) : Option ProcErr :=
  if o.preserveMetadata then some .preserveMetadataNotSupported
  else if o.maxFileSize < 0 then some .negativeMaxFileSize
  else none

/-- `ConvertOptions`: a target format plus embedded `CompressOptions`. -/
structure ConvertOptions where
  format : ImageFormat
  compress : CompressOptions
deriving DecidableEq, Repr

/-- `Result` of one processing operation (`processor.go`). -/
structure ProcResult where
  originalSize : Int
  compressedSize : Int
  format : ImageFormat
deriving DecidableEq, Repr

/-! ## Bounded reader (`pkg/processor/reader.go`) -/

/-- Two's-complement wraparound of `int64` arithmetic. -/
def wrap64 (n : Int) : Int :=
  (n + 2 ^ 63) % 2 ^ 64 - 2 ^ 63

/-- `io.LimitReader(r, n)` followed by `io.ReadAll`: yields at most `n`
bytes, and none at all when `n ≤ 0`.  The reader is modelled by the full
byte sequence it would deliver. -/
def limitRead (data : List UInt8) (limit : Int) : List UInt8 :=
  if limit ≤ 0 then [] else data.take limit.toNat

/-- `readAllWithLimit` (`reader.go`): unlimited `io.ReadAll` when
`maxSize <= 0`, otherwise read up to `maxSize+1` bytes (with `int64`
wraparound made explicit) and fail with `ErrFileTooLarge` when more than
`maxSize` arrived. -/
def readAllWithLimit (data : List UInt8) (maxSize : Int) : Except ProcErr (List UInt8) :=
  if maxSize ≤ 0 then .ok data
  else
    let taken := limitRead data (wrap64 (maxSize + 1))
    if (taken.length : Int) > maxSize then .error .fileTooLarge
    else .ok taken

/-! ## Codecs

Image decoding and encoding are delegated to external libraries in the
source (a declared non-goal of the spec), so they enter the model as oracle
parameters: `decode` may fail (corrupt input) or yield an abstract image
handle, `encode` may fail (encoder or, for the streaming codecs, writer
error) or yield the encoded bytes.  Context cancellation is polled with
non-blocking `select`/`checkContext` at fixed program points; each poll site
gets its own boolean observation. -/

/-- Abstract decoded image handle. -/
abbrev Image : Type := Nat

/-- Quality resolution block of `JPEGProcessor.Compress`/`Convert`
(`jpeg.go`): a non-positive override falls back to the level default, then
the value is clamped into 1..100. -/
def resolveJPEGQuality (q lvl : Int) : Int :=
  let quality := if q ≤ 0 then toJPEGQuality lvl else q
  let quality := if quality < 1 then 1 else quality
  if quality > 100 then 100 else quality

/-- `JPEGProcessor.Compress` (`jpeg.go`): one cancellation poll, then
`io.ReadAll` (no `Validate` call, no size limit), decode, encode to a
buffer, copy to the writer. -/
def jpegCompress (decode : List UInt8 → Option Image)
    (encode : Image → Int → Option (List UInt8)) (writeOk : Bool)
    (canceled : Bool) (data : List UInt8) (opts : CompressOptions) :
    Except ProcErr ProcResult :=
  if canceled then .error .canceled
  else
    let inputData := data
    match decode inputData with
    | none => .error .decodeFailed
    | some img =>
      match encode img (resolveJPEGQuality opts.quality opts.level) with
      | none => .error .encodeFailed
      | some buf =>
        if writeOk then .ok ⟨(inputData.length : Int), (buf.length : Int), .jpeg⟩
        else .error .writeFailed

/-- `JPEGProcessor.Convert` (`jpeg.go`): same pipeline as `Compress` (the
source version has no target-format assertion and no `Validate` call). -/
def jpegConvert (decode : List UInt8 → Option Image)
    (encode : Image → Int → Option (List UInt8)) (writeOk : Bool)
    (canceled : Bool) (data : List UInt8) (opts : ConvertOptions) :
    Except ProcErr ProcResult :=
  if canceled then .error .canceled
  else
    let inputData := data
    match decode inputData with
    | none => .error .decodeFailed
    | some img =>
      match encode img (resolveJPEGQuality opts.compress.quality opts.compress.level) with
      | none => .error .encodeFailed
      | some buf =>
        if writeOk then .ok ⟨(inputData.length : Int), (buf.length : Int), .jpeg⟩
        else .error .writeFailed

/-- `PNGProcessor.Compress` (`png.go`, current version): `Validate`, poll,
`readAllWithLimit`, poll, decode, poll, encode straight into the destination
through `countingWriter` (writer errors surface as encoder errors; the
reported compressed size is the byte count the wrapper saw). -/
def pngCompress (decode : List UInt8 → Option Image)
    (encode : Image → PNGCompressionLevel → Option (List UInt8))
    (c1 c2 c3 : Bool) (data : List UInt8) (opts : CompressOptions) :
    Except ProcErr ProcResult :=
  match validate opts with
  | some e => .error e
  | none =>
    if c1 then .error .canceled
    else
      match readAllWithLimit data opts.maxFileSize with
      | .error e => .error e
      | .ok inputData =>
        if c2 then .error .canceled
        else
          match decode inputData with
          | none => .error .decodeFailed
          | some img =>
            if c3 then .error .canceled
            else
              match encode img (toPNGCompressionLevel opts.level) with
              | none => .error .encodeFailed
              | some out => .ok ⟨(inputData.length : Int), (out.length : Int), .png⟩

/-- `PNGProcessor.Convert` (`png.go`, current version): target-format
assertion first, then the `Compress` pipeline. -/
def pngConvert (decode : List UInt8 → Option Image)
    (encode : Image → PNGCompressionLevel → Option (List UInt8))
    (c1 c2 c3 : Bool) (data : List UInt8) (opts : ConvertOptions) :
    Except ProcErr ProcResult :=
  if opts.format ≠ .png then .error (.formatMismatch .png opts.format)
  else
    match validate opts.compress with
    | some e => .error e
    | none =>
      if c1 then .error .canceled
      else
        match readAllWithLimit data opts.compress.maxFileSize with
        | .error e => .error e
        | .ok inputData =>
          if c2 then .error .canceled
          else
            match decode inputData with
            | none => .error .decodeFailed
            | some img =>
              if c3 then .error .canceled
              else
                match encode img (toPNGCompressionLevel opts.compress.level) with
                | none => .error .encodeFailed
                | some out => .ok ⟨(inputData.length : Int), (out.length : Int), .png⟩

/-- Clamp of the WebP quality value into 1..100 (`webp.go`).  Go performs it
on a `float32` obtained from the `int` override; every `int64` maps to a
`float32` on the same side of both bounds, and integers in 1..100 are exact,
so the `Int` model is extensionally faithful. -/
def clampWebPQuality (q : Int) : Int :=
  let quality := if q < 1 then 1 else q
  if quality > 100 then 100 else quality

/-- Quality block of `WEBPProcessor.Compress` (`webp.go`): exactly 0 means
unset (level default); any other override — including a negative one — is
clamped. -/
def resolveWebPCompressQuality (q lvl : Int) : Int :=
  if q = 0 then toWebPQuality lvl else clampWebPQuality q

/-- Quality block of `WEBPProcessor.Convert` (`webp.go`): a non-positive
override means unset, then an unconditional clamp. -/
def resolveWebPConvertQuality (q lvl : Int) : Int :=
  let quality := if q ≤ 0 then toWebPQuality lvl else q
  clampWebPQuality quality

/-- `WEBPProcessor.Compress` (`webp.go`): `Validate`, poll,
`readAllWithLimit`, poll, decode, poll, resolve quality, streaming encode. -/
def webpCompress (decode : List UInt8 → Option Image)
    (encode : Image → Int → Option (List UInt8))
    (c1 c2 c3 : Bool) (data : List UInt8) (opts : CompressOptions) :
    Except ProcErr ProcResult :=
  match validate opts with
  | some e => .error e
  | none =>
    if c1 then .error .canceled
    else
      match readAllWithLimit data opts.maxFileSize with
      | .error e => .error e
      | .ok inputData =>
        if c2 then .error .canceled
        else
          match decode inputData with
          | none => .error .decodeFailed
          | some img =>
            if c3 then .error .canceled
            else
              match encode img (resolveWebPCompressQuality opts.quality opts.level) with
              | none => .error .encodeFailed
              | some out => .ok ⟨(inputData.length : Int), (out.length : Int), .webp⟩

/-- `WEBPProcessor.Convert` (`webp.go`): target-format assertion, then the
pipeline with the `Convert` quality block. -/
def webpConvert (decode : List UInt8 → Option Image)
    (encode : Image → Int → Option (List UInt8))
    (c1 c2 c3 : Bool) (data : List UInt8) (opts : ConvertOptions) :
    Except ProcErr ProcResult :=
  if opts.format ≠ .webp then .error (.formatMismatch .webp opts.format)
  else
    match validate opts.compress with
    | some e => .error e
    | none =>
      if c1 then .error .canceled
      else
        match readAllWithLimit data opts.compress.maxFileSize with
        | .error e => .error e
        | .ok inputData =>
          if c2 then .error .canceled
          else
            match decode inputData with
            | none => .error .decodeFailed
            | some img =>
              if c3 then .error .canceled
              else
                match encode img
                    (resolveWebPConvertQuality opts.compress.quality opts.compress.level) with
                | none => .error .encodeFailed
                | some out => .ok ⟨(inputData.length : Int), (out.length : Int), .webp⟩

/-! ## Paths and format detection (`jpeg.go` batch section)

Paths are modelled as character lists.  The model assumes clean,
slash-separated paths (what `filepath.WalkDir`/`Join` produce on Unix). -/

/-- Reverse-scan worker for `filepath.Ext`: walk the path from its end,
stop at a separator, return the suffix from the first `.` found. -/
def fileExtAux : List Char → List Char → List Char
  | [], _ => []
  | c :: rest, acc =>
    if c = '/' then []
    else if c = '.' then '.' :: acc
    else fileExtAux rest (c :: acc)

/-- `filepath.Ext`: the suffix beginning at the final dot of the final path
element, or empty when there is none. -/
def fileExt (path : List Char) : List Char :=
  fileExtAux path.reverse []

/-- `strings.ToLower(filepath.Ext(path))` (ASCII lowering, which is all the
comparisons need). -/
def lowerExt (path : List Char) : List Char :=
  (fileExt path).map Char.toLower

/-- `detectFormatFromPath` (`jpeg.go`): case-insensitive extension
dispatch.  The source version recognizes only `.jpg`/`.jpeg` and `.png`;
any other extension is a deterministic unsupported-format error. -/
def detectFormatFromPath (path : List Char) : Except ProcErr ImageFormat :=
  let ext := lowerExt path
  if ext = ".jpg".toList ∨ ext = ".jpeg".toList then .ok .jpeg
  else if ext = ".png".toList then .ok .png
  else .error (.unsupportedExt ext)

/-- `filepath.Dir`: the path with its final element removed, `"."` when it
has a single element. -/
def pathDir (p : List Char) : List Char :=
  if '/' ∈ p then (((p.reverse.dropWhile (fun c => c ≠ '/')).drop 1).reverse)
  else ['.']

/-- `filepath.Join` of a clean base and a relative path. -/
def pathJoin (base rel : List Char) : List Char :=
  base ++ '/' :: rel

/-- `filepath.Rel(base, p)` for `p` produced by joining `base` with a
relative path: strip `base` and the separator. -/
def pathRel (base p : List Char) : List Char :=
  p.drop (base.length + 1)

/-! ## Filesystem model

The engine only creates directories, creates files, and removes files; an
abstract filesystem records which paths exist.  Per-item success or failure
of the OS calls and of the codec invocation is abstracted into an
environment record — the result of `proc.Compress` is the pair
`(*Result, error)` of the Go interface, either component possibly absent. -/

/-- Abstract filesystem: the sets of existing files and directories. -/
structure FS where
  files : List (List Char)
  dirs : List (List Char)
deriving DecidableEq, Repr

/-- `os.MkdirAll`: ensure a directory exists. -/
def FS.addDir (fs : FS) (d : List Char) : FS :=
  { fs with dirs := if d ∈ fs.dirs then fs.dirs else d :: fs.dirs }

/-- `os.Create`: ensure the file exists (truncating an existing file keeps
it present). -/
def FS.createFile (fs : FS) (p : List Char) : FS :=
  { fs with files := if p ∈ fs.files then fs.files else p :: fs.files }

/-- `os.Remove` on a file path. -/
def FS.removeFile (fs : FS) (p : List Char) : FS :=
  { fs with files := fs.files.filter (fun q => q ≠ p) }

/-! ## Batch engine (`jpeg.go` batch section) -/

/-- `BatchItem`: input path, output path, per-item options. -/
structure BatchItem where
  inputPath : List Char
  outputPath : List Char
  options : CompressOptions
deriving DecidableEq, Repr

instance : Inhabited BatchItem :=
  ⟨⟨[], [], ⟨0, 0, false, 0⟩⟩⟩

/-- `BatchResult`: the item plus an optional result and an optional error
(both are nullable in Go). -/
structure BatchResult where
  item : BatchItem
  result : Option ProcResult
  error : Option ProcErr
deriving DecidableEq, Repr

/-- `BatchResult.IsSuccess` (`processor.go`): error absent and result
present. -/
def BatchResult.isSuccess (br : BatchResult) : Bool :=
  br.error.isNone && br.result.isSome

/-- The Go zero value of `BatchResult` (the pre-sized result slice is
initialized with it). -/
def zeroBatchResult : BatchResult :=
  ⟨default, none, none⟩

/-- Exactly one of result/error present. -/
def exactlyOne (br : BatchResult) : Bool :=
  (br.result.isSome && br.error.isNone) || (br.result.isNone && br.error.isSome)

/-- Per-item environment: outcome of each OS call the item performs and the
`(*Result, error)` pair returned by the codec invocation. -/
structure ItemEnv where
  openOk : Bool
  mkdirOk : Bool
  createOk : Bool
  compressRes : Option ProcResult
  compressErr : Option ProcErr
deriving Repr

/-- `processItem` (`jpeg.go` batch section): detect the format, open the
input, `MkdirAll` the destination directory, `Create` the destination file,
dispatch on the format (JPEG and PNG have codecs, anything else is an
unsupported-format error), run the codec, and on codec failure close and
remove the created destination file. -/
def processItem (item : BatchItem) (env : ItemEnv) (fs : FS) : BatchResult × FS :=
  match detectFormatFromPath item.inputPath with
  | .error e => (⟨item, none, some e⟩, fs)
  | .ok format =>
    if ¬env.openOk then (⟨item, none, some .openFailed⟩, fs)
    else if ¬env.mkdirOk then (⟨item, none, some .mkdirFailed⟩, fs)
    else
      let fs1 := fs.addDir (pathDir item.outputPath)
      if ¬env.createOk then (⟨item, none, some .createFailed⟩, fs1)
      else
        let fs2 := fs1.createFile item.outputPath
        match format with
        | .jpeg | .png =>
          match env.compressErr with
          | some e => (⟨item, none, some e⟩, fs2.removeFile item.outputPath)
          | none => (⟨item, env.compressRes, none⟩, fs2)
        | f => (⟨item, none, some (.unsupportedFormatDispatch f)⟩, fs2)

/-- One worker-loop iteration of `ProcessBatch` for the index it pulled
from the queue: a non-blocking poll of the shared context first — if it has
fired, the item is marked failed with the cancellation error and nothing
else happens — otherwise `processItem` runs. -/
def processOne (item : BatchItem) (env : ItemEnv) (canceled : Bool) (fs : FS) :
    BatchResult × FS :=
  if canceled then (⟨item, none, some .canceled⟩, fs)
  else processItem item env fs

/-- `ProcessBatch` under an explicit schedule: `order` is the sequence in
which the workers' per-item writes land (index `i` of the queue processed
with environment `envs i`, the context observed as `cancels i` at its
pick-up).  The state is the pre-sized result slice (as a map from index to
the written entry) and the filesystem. -/
def runSchedule (items : List BatchItem) (envs : Nat → ItemEnv)
    (cancels : Nat → Bool) (order : List Nat) (fs0 : FS) :
    (Nat → Option BatchResult) × FS :=
  order.foldl
    (fun st idx =>
      let r := processOne (items.getD idx default) (envs idx) (cancels idx) st.2
      (fun j => if j = idx then some r.1 else st.1 j, r.2))
    (fun _ => none, fs0)

/-- The result slice `ProcessBatch` returns: one entry per input index,
zero-valued where no worker wrote (which never happens once the queue is
drained). -/
def processBatchResults (items : List BatchItem) (envs : Nat → ItemEnv)
    (cancels : Nat → Bool) (order : List Nat) (fs0 : FS) : List BatchResult :=
  (List.range items.length).map fun i =>
    ((runSchedule items envs cancels order fs0).1 i).getD zeroBatchResult

/-! ## Directory scanner (`ScanDirectory`, `jpeg.go` batch section)

`filepath.WalkDir` is modelled by the list of entries it visits in order;
each entry carries its path relative to the input root and whether it is a
directory.  The walker callback skips directories, silently skips files
whose extension `detectFormatFromPath` rejects, and otherwise appends one
item whose output path re-roots the relative path under the output root. -/

/-- One visited walk entry: path relative to the root, directory flag. -/
structure WalkEntry where
  rel : List Char
  isDir : Bool
deriving DecidableEq, Repr

/-- `ScanDirectory`: `os.Stat` root check (abstracted to `dirOk`), then the
walk accumulating `BatchItem`s.  `relPath := filepath.Rel(inputDir, path)`
and `outPath := filepath.Join(outputDir, relPath)` exactly as in source. -/
def scanDirectory (dirOk : Bool) (inputDir outputDir : List Char)
    (walk : List WalkEntry) (opts : CompressOptions) :
    Except ProcErr (List BatchItem) :=
  if ¬dirOk then .error .openFailed
  else
    .ok <| walk.foldl
      (fun items e =>
        if e.isDir then items
        else
          let path := pathJoin inputDir e.rel
          match detectFormatFromPath path with
          | .error _ => items
          | .ok _ =>
            let relPath := pathRel inputDir path
            items ++ [⟨path, pathJoin outputDir relPath, opts⟩])
      []

/-- The item the scan is expected to emit for a walk entry, phrased the way
the claim does: skip directories and unrecognized extensions, otherwise one
item whose output path is the entry's relative path re-rooted under the
output root. -/
def scanItemOf (inputDir outputDir : List Char) (opts : CompressOptions)
    (e : WalkEntry) : Option BatchItem :=
  if e.isDir then none
  else
    match detectFormatFromPath (pathJoin inputDir e.rel) with
    | .error _ => none
    | .ok _ => some ⟨pathJoin inputDir e.rel, pathJoin outputDir e.rel, opts⟩

/-! ## Engine lemmas -/

/-- The `BatchResult` an item produces does not depend on the filesystem
state it runs against (the environment already fixes the outcome of every
OS call). -/
theorem processItem_fst_fs (item : BatchItem) (env : ItemEnv) (fs fs' : FS) :
    (processItem item env fs).1 = (processItem item env fs').1 := by
  unfold processItem
  cases detectFormatFromPath item.inputPath with
  | error e => rfl
  | ok f =>
    by_cases h1 : env.openOk <;> by_cases h2 : env.mkdirOk <;>
      by_cases h3 : env.createOk <;> cases f <;> cases henv : env.compressErr <;>
        simp [h1, h2, h3, henv]

/-- Every branch of `processItem` copies the input item into the result. -/
theorem processItem_fst_item (item : BatchItem) (env : ItemEnv) (fs : FS) :
    (processItem item env fs).1.item = item := by
  unfold processItem
  cases detectFormatFromPath item.inputPath with
  | error e => rfl
  | ok f =>
    by_cases h1 : env.openOk <;> by_cases h2 : env.mkdirOk <;>
      by_cases h3 : env.createOk <;> cases f <;> cases henv : env.compressErr <;>
        simp [h1, h2, h3, henv]

theorem processOne_fst_fs (item : BatchItem) (env : ItemEnv) (c : Bool) (fs fs' : FS) :
    (processOne item env c fs).1 = (processOne item env c fs').1 := by
  unfold processOne
  cases c with
  | true => rfl
  | false => simpa using processItem_fst_fs item env fs fs'

theorem processOne_fst_item (item : BatchItem) (env : ItemEnv) (c : Bool) (fs : FS) :
    (processOne item env c fs).1.item = item := by
  unfold processOne
  cases c with
  | true => rfl
  | false => simpa using processItem_fst_item item env fs

/-- The entry the schedule writes at index `i` (well defined because the
written value does not depend on the filesystem state at the time of the
write). -/
def writtenResult (items : List BatchItem) (envs : Nat → ItemEnv)
    (cancels : Nat → Bool) (i : Nat) : BatchResult :=
  (processOne (items.getD i default) (envs i) (cancels i) ⟨[], []⟩).1

/-- After running a schedule, slot `i` of the result slice holds the item's
result exactly when some worker processed index `i`. -/
theorem runSchedule_fst_apply (items : List BatchItem) (envs : Nat → ItemEnv)
    (cancels : Nat → Bool) (order : List Nat) (fs0 : FS) (i : Nat) :
    (runSchedule items envs cancels order fs0).1 i
      = if i ∈ order then some (writtenResult items envs cancels i) else none := by
  suffices h : ∀ (order : List Nat) (init : (Nat → Option BatchResult) × FS),
      (order.foldl
        (fun (st : (Nat → Option BatchResult) × FS) (idx : Nat) =>
          let r := processOne (items.getD idx default) (envs idx) (cancels idx) st.2
          (fun j => if j = idx then some r.1 else st.1 j, r.2)) init).1 i
        = if i ∈ order then some (writtenResult items envs cancels i) else init.1 i by
    exact h order _
  intro order
  induction order with
  | nil => intro init; simp
  | cons a rest ih =>
    intro init
    rw [List.foldl_cons, ih]
    by_cases hrest : i ∈ rest
    · rw [if_pos hrest, if_pos (List.mem_cons_of_mem a hrest)]
    · by_cases hia : i = a
      · subst hia
        rw [if_neg hrest, if_pos (List.mem_cons_self i rest)]
        show (if i = i then
            some (processOne (items.getD i default) (envs i) (cancels i) init.2).1
          else init.1 i) = some (writtenResult items envs cancels i)
        rw [if_pos rfl]
        exact congrArg some
          (processOne_fst_fs (items.getD i default) (envs i) (cancels i) init.2 ⟨[], []⟩)
      · rw [if_neg hrest, if_neg (by simp [List.mem_cons, hia, hrest])]
        show (if i = a then
            some (processOne (items.getD a default) (envs a) (cancels a) init.2).1
          else init.1 i) = init.1 i
        rw [if_neg hia]

/-- Claim C1: for every batch and every schedule that processes each index
exactly once, `ProcessBatch` returns exactly one `BatchResult` per input
item, and `results[i].Item = items[i]` for every index — input order, not
completion order. -/
theorem processBatch_preserves_input_order (items : List BatchItem)
    (envs : Nat → ItemEnv) (cancels : Nat → Bool) (order : List Nat) (fs0 : FS)
    (hperm : order.Perm (List.range items.length)) :
    (processBatchResults items envs cancels order fs0).length = items.length ∧
      ∀ i, i < items.length →
        ((processBatchResults items envs cancels order fs0).getD i zeroBatchResult).item
          = items.getD i default := by
  constructor
  · simp [processBatchResults]
  · intro i hi
    have hmem : i ∈ order := hperm.mem_iff.2 (List.mem_range.2 hi)
    have hgd : (processBatchResults items envs cancels order fs0).getD i zeroBatchResult
        = ((runSchedule items envs cancels order fs0).1 i).getD zeroBatchResult := by
      unfold processBatchResults
      rw [List.getD_eq_getElem?_getD, List.getElem?_map, List.getElem?_range hi]
      rfl
    rw [hgd, runSchedule_fst_apply, if_pos hmem]
    simpa [writtenResult] using
      processOne_fst_item (items.getD i default) (envs i) (cancels i) ⟨[], []⟩

/-- Witness for C1 on a concrete two-item batch with the completion order
reversed. -/
theorem processBatch_preserves_input_order_witness :
    ([1, 0].Perm (List.range ([⟨"a.jpg".toList, "o/a.jpg".toList, ⟨0, 1, false, 0⟩⟩,
        ⟨"b.png".toList, "o/b.png".toList, ⟨0, 1, false, 0⟩⟩] : List BatchItem).length)) ∧
      (processBatchResults
          [⟨"a.jpg".toList, "o/a.jpg".toList, ⟨0, 1, false, 0⟩⟩,
            ⟨"b.png".toList, "o/b.png".toList, ⟨0, 1, false, 0⟩⟩]
          (fun _ => ⟨true, true, true, some ⟨10, 5, .jpeg⟩, none⟩)
          (fun _ => false) [1, 0] ⟨[], []⟩).length = 2 := by
  have h := processBatch_preserves_input_order
    [⟨"a.jpg".toList, "o/a.jpg".toList, ⟨0, 1, false, 0⟩⟩,
      ⟨"b.png".toList, "o/b.png".toList, ⟨0, 1, false, 0⟩⟩]
    (fun _ => ⟨true, true, true, some ⟨10, 5, .jpeg⟩, none⟩)
    (fun _ => false) [1, 0] ⟨[], []⟩ (by decide)
  exact ⟨by decide, h.1⟩

/-- Index lookup into the returned result slice reduces to the schedule's
final write map. -/
theorem processBatchResults_getD (items : List BatchItem) (envs : Nat → ItemEnv)
    (cancels : Nat → Bool) (order : List Nat) (fs0 : FS) (i : Nat)
    (hi : i < items.length) :
    (processBatchResults items envs cancels order fs0).getD i zeroBatchResult
      = ((runSchedule items envs cancels order fs0).1 i).getD zeroBatchResult := by
  unfold processBatchResults
  rw [List.getD_eq_getElem?_getD, List.getElem?_map, List.getElem?_range hi]
  rfl

/-- Every branch of the worker loop writes a result with exactly one of
result/error present, as long as the codec honours its contract of never
returning `(nil, nil)` (which the embedded codecs, being `Except`-shaped,
always do). -/
theorem processOne_exactlyOne (item : BatchItem) (env : ItemEnv) (c : Bool) (fs : FS)
    (honest : env.compressErr = none → (env.compressRes).isSome) :
    exactlyOne (processOne item env c fs).1 = true := by
  unfold processOne
  cases c with
  | true => rfl
  | false =>
    simp only [Bool.false_eq_true, if_false]
    unfold processItem
    cases detectFormatFromPath item.inputPath with
    | error e => rfl
    | ok f =>
      by_cases h1 : env.openOk <;> by_cases h2 : env.mkdirOk <;>
        by_cases h3 : env.createOk <;> cases f <;> cases henv : env.compressErr <;>
        simp_all [exactlyOne]

/-- Claim C2: every `BatchResult` a drained batch returns has exactly one of
its `Result` and `Error` fields present — never both, never neither. -/
theorem processBatch_result_xor_error (items : List BatchItem)
    (envs : Nat → ItemEnv) (cancels : Nat → Bool) (order : List Nat) (fs0 : FS)
    (hperm : order.Perm (List.range items.length))
    (honest : ∀ i, i < items.length →
      ((envs i).compressErr = none → ((envs i).compressRes).isSome)) :
    ∀ br ∈ processBatchResults items envs cancels order fs0, exactlyOne br = true := by
  intro br hbr
  unfold processBatchResults at hbr
  obtain ⟨i, hi, hbr⟩ := List.mem_map.1 hbr
  have hin : i < items.length := List.mem_range.1 hi
  rw [runSchedule_fst_apply, if_pos (hperm.mem_iff.2 hi)] at hbr
  subst hbr
  exact processOne_exactlyOne _ _ _ _ (honest i hin)

/-- Witness for C2: a two-item batch with one success and one codec
failure; both results pass the exactly-one check. -/
theorem processBatch_result_xor_error_witness :
    exactlyOne ((processBatchResults
        [⟨"a.jpg".toList, "o/a.jpg".toList, ⟨0, 1, false, 0⟩⟩,
          ⟨"b.png".toList, "o/b.png".toList, ⟨0, 1, false, 0⟩⟩]
        (fun i => if i = 0 then ⟨true, true, true, some ⟨10, 5, .jpeg⟩, none⟩
          else ⟨true, true, true, none, some .decodeFailed⟩)
        (fun _ => false) [1, 0] ⟨[], []⟩).getD 0 zeroBatchResult) = true ∧
      exactlyOne ((processBatchResults
        [⟨"a.jpg".toList, "o/a.jpg".toList, ⟨0, 1, false, 0⟩⟩,
          ⟨"b.png".toList, "o/b.png".toList, ⟨0, 1, false, 0⟩⟩]
        (fun i => if i = 0 then ⟨true, true, true, some ⟨10, 5, .jpeg⟩, none⟩
          else ⟨true, true, true, none, some .decodeFailed⟩)
        (fun _ => false) [1, 0] ⟨[], []⟩).getD 1 zeroBatchResult) = true := by
  have h := processBatch_result_xor_error
    [⟨"a.jpg".toList, "o/a.jpg".toList, ⟨0, 1, false, 0⟩⟩,
      ⟨"b.png".toList, "o/b.png".toList, ⟨0, 1, false, 0⟩⟩]
    (fun i => if i = 0 then ⟨true, true, true, some ⟨10, 5, .jpeg⟩, none⟩
      else ⟨true, true, true, none, some .decodeFailed⟩)
    (fun _ => false) [1, 0] ⟨[], []⟩ (by decide)
    (by intro i hi hc
        by_cases h0 : i = 0
        · subst h0; simp
        · simp [h0] at hc)
  exact ⟨h _ (by decide), h _ (by decide)⟩

/-- The schedule's filesystem is unchanged when every scheduled item sees
the token already cancelled. -/
theorem runSchedule_fs_all_cancelled (items : List BatchItem) (envs : Nat → ItemEnv)
    (cancels : Nat → Bool) (order : List Nat) (fs0 : FS)
    (hc : ∀ i ∈ order, cancels i = true) :
    (runSchedule items envs cancels order fs0).2 = fs0 := by
  suffices h : ∀ (order : List Nat) (init : (Nat → Option BatchResult) × FS),
      (∀ i ∈ order, cancels i = true) →
      (order.foldl
        (fun (st : (Nat → Option BatchResult) × FS) (idx : Nat) =>
          let r := processOne (items.getD idx default) (envs idx) (cancels idx) st.2
          (fun j => if j = idx then some r.1 else st.1 j, r.2)) init).2 = init.2 by
    exact h order _ hc
  intro order
  induction order with
  | nil => intro init _; rfl
  | cons a rest ih =>
    intro init hall
    rw [List.foldl_cons]
    rw [ih _ fun i hi => hall i (List.mem_cons_of_mem a hi)]
    show (processOne (items.getD a default) (envs a) (cancels a) init.2).2 = init.2
    rw [hall a (List.mem_cons_self a rest)]
    rfl

/-- Claim C3: an item picked up under an already-cancelled token yields a
result carrying the cancellation error with no `Result`; when the whole
batch runs cancelled the filesystem is untouched (no output file or
directory is created); and the batch still returns one result per item. -/
theorem processBatch_cancelled_items (items : List BatchItem) (envs : Nat → ItemEnv)
    (cancels : Nat → Bool) (order : List Nat) (fs0 : FS)
    (hperm : order.Perm (List.range items.length)) :
    (∀ (item : BatchItem) (env : ItemEnv) (fs : FS),
        processOne item env true fs = (⟨item, none, some .canceled⟩, fs)) ∧
      (∀ i, i < items.length → cancels i = true →
        (processBatchResults items envs cancels order fs0).getD i zeroBatchResult
          = ⟨items.getD i default, none, some .canceled⟩) ∧
      ((∀ i, i < items.length → cancels i = true) →
        (runSchedule items envs cancels order fs0).2 = fs0) ∧
      (processBatchResults items envs cancels order fs0).length = items.length := by
  refine ⟨fun item env fs => rfl, ?_, ?_, by simp [processBatchResults]⟩
  · intro i hi hci
    rw [processBatchResults_getD items envs cancels order fs0 i hi,
      runSchedule_fst_apply, if_pos (hperm.mem_iff.2 (List.mem_range.2 hi))]
    unfold writtenResult processOne
    rw [hci]
    rfl
  · intro hall
    exact runSchedule_fs_all_cancelled items envs cancels order fs0 fun i hi =>
      hall i (List.mem_range.1 (hperm.mem_iff.1 hi))

/-- Witness for C3: a one-item batch under an already-cancelled token — one
result carrying the cancellation error, and the filesystem (containing an
unrelated file) unchanged. -/
theorem processBatch_cancelled_items_witness :
    (processBatchResults [⟨"a.jpg".toList, "o/a.jpg".toList, ⟨0, 1, false, 0⟩⟩]
        (fun _ => ⟨true, true, true, some ⟨10, 5, .jpeg⟩, none⟩) (fun _ => true)
        [0] ⟨["x".toList], []⟩).getD 0 zeroBatchResult
      = ⟨⟨"a.jpg".toList, "o/a.jpg".toList, ⟨0, 1, false, 0⟩⟩, none, some .canceled⟩ ∧
      (runSchedule [⟨"a.jpg".toList, "o/a.jpg".toList, ⟨0, 1, false, 0⟩⟩]
        (fun _ => ⟨true, true, true, some ⟨10, 5, .jpeg⟩, none⟩) (fun _ => true)
        [0] ⟨["x".toList], []⟩).2 = ⟨["x".toList], []⟩ := by
  have h := processBatch_cancelled_items
    [⟨"a.jpg".toList, "o/a.jpg".toList, ⟨0, 1, false, 0⟩⟩]
    (fun _ => ⟨true, true, true, some ⟨10, 5, .jpeg⟩, none⟩) (fun _ => true)
    [0] ⟨["x".toList], []⟩ (by decide)
  exact ⟨h.2.1 0 (by decide) rfl, h.2.2.1 fun i _ => rfl⟩

/-- `detectFormatFromPath` only ever reports JPEG or PNG, so the codec
dispatch in `processItem` never reaches its unsupported-format branch
(which would leave the created file behind). -/
theorem detectFormat_ok_cases (path : List Char) (f : ImageFormat)
    (h : detectFormatFromPath path = .ok f) : f = .jpeg ∨ f = .png := by
  simp only [detectFormatFromPath] at h
  split_ifs at h <;> simp_all

/-- Claim C4: whenever an item fails after its destination file has been
created — i.e. the codec call reports a decode, encode, or write error —
`processItem` carries that error in the result and the destination file is
no longer present in the filesystem. -/
theorem processItem_failure_removes_file (item : BatchItem) (env : ItemEnv) (fs : FS)
    (f : ImageFormat) (hdet : detectFormatFromPath item.inputPath = .ok f)
    (hopen : env.openOk = true) (hmk : env.mkdirOk = true) (hcr : env.createOk = true)
    (e : ProcErr) (herr : env.compressErr = some e) :
    (processItem item env fs).1.error = some e ∧
      item.outputPath ∉ (processItem item env fs).2.files := by
  have hf := detectFormat_ok_cases item.inputPath f hdet
  unfold processItem
  rw [hdet]
  rcases hf with hf | hf <;> subst hf <;>
    simp [hopen, hmk, hcr, herr, FS.removeFile, List.mem_filter]

/-- Witness for C4: a JPEG item whose codec call fails with a decode error;
the destination file created beforehand is removed. -/
theorem processItem_failure_removes_file_witness :
    (processItem ⟨"a.jpg".toList, "o/a.jpg".toList, ⟨0, 1, false, 0⟩⟩
        ⟨true, true, true, none, some .decodeFailed⟩ ⟨[], []⟩).1.error
        = some .decodeFailed ∧
      "o/a.jpg".toList ∉ (processItem ⟨"a.jpg".toList, "o/a.jpg".toList, ⟨0, 1, false, 0⟩⟩
        ⟨true, true, true, none, some .decodeFailed⟩ ⟨[], []⟩).2.files := by
  exact processItem_failure_removes_file
    ⟨"a.jpg".toList, "o/a.jpg".toList, ⟨0, 1, false, 0⟩⟩
    ⟨true, true, true, none, some .decodeFailed⟩ ⟨[], []⟩ .jpeg (by decide)
    rfl rfl rfl .decodeFailed rfl

/-! ## Per-codec option handling (claims C5, C6, C7) -/

/-- Claim C5 failing-input evaluation: with `MaxFileSize = 1` and a 2-byte
input, the JPEG codec ignores the limit — it reads everything and proceeds
to decode (failing, if at all, with a decode error, not `ErrFileTooLarge`) —
while the shared `readAllWithLimit` helper and the PNG and WebP codecs do
fail with the file-too-large error before decoding. -/
theorem jpegCompress_ignores_maxFileSize :
    jpegCompress (fun _ => none) (fun _ _ => some []) true false
        [(0xFF : UInt8), 0xFF] ⟨0, 1, false, 1⟩ = .error .decodeFailed ∧
      jpegCompress (fun _ => none) (fun _ _ => some []) true false
        [(0xFF : UInt8), 0xFF] ⟨0, 1, false, 1⟩ ≠ .error .fileTooLarge ∧
      readAllWithLimit [(0xFF : UInt8), 0xFF] 1 = .error .fileTooLarge ∧
      pngCompress (fun _ => none) (fun _ _ => some []) false false false
        [(0xFF : UInt8), 0xFF] ⟨0, 1, false, 1⟩ = .error .fileTooLarge ∧
      webpCompress (fun _ => none) (fun _ _ => some []) false false false
        [(0xFF : UInt8), 0xFF] ⟨0, 1, false, 1⟩ = .error .fileTooLarge := by
  decide

/-- Claim C6 failing-input evaluation: with `PreserveMetadata = true` the
JPEG codec never calls `Validate` — it reads, decodes and succeeds — while
`Validate` itself rejects the options and the PNG and WebP codecs fail with
`ErrPreserveMetadataNotSupported` before any read. -/
theorem jpegCompress_skips_validation :
    jpegCompress (fun _ => some 0) (fun _ _ => some [(0x00 : UInt8)]) true false
        [(0x01 : UInt8)] ⟨80, 1, true, 0⟩ = .ok ⟨1, 1, .jpeg⟩ ∧
      validate ⟨80, 1, true, 0⟩ = some .preserveMetadataNotSupported ∧
      pngCompress (fun _ => some 0) (fun _ _ => some [(0x00 : UInt8)]) false false false
        [(0x01 : UInt8)] ⟨80, 1, true, 0⟩ = .error .preserveMetadataNotSupported ∧
      webpCompress (fun _ => some 0) (fun _ _ => some [(0x00 : UInt8)]) false false false
        [(0x01 : UInt8)] ⟨80, 1, true, 0⟩ = .error .preserveMetadataNotSupported := by
  decide

/-- The claim's reading of quality resolution: exactly 0 means unset (level
default), any other explicit override is clamped into the format's valid
range and takes precedence. -/
def specResolvedQuality (q lvl : Int) (levelDefault : Int → Int) : Int :=
  if q = 0 then levelDefault lvl else max 1 (min 100 q)

/-- Claim C7 counterexample: for the JPEG codec a negative override
(`Quality = -10`, level Medium) is treated as unset and resolves to the
level default 75, not to the claim's clamped override 1. -/
theorem resolveJPEGQuality_negative_counterexample :
    resolveJPEGQuality (-10) CompressionMedium = 75 ∧
      specResolvedQuality (-10) CompressionMedium toJPEGQuality = 1 ∧
      (75 : Int) ≠ 1 := by
  decide

/-- Claim C7 (amended): a positive explicit override, clamped to at most
100, takes precedence; a non-positive override counts as unset for JPEG and
for WebP's `Convert` (the level supplies the default), while WebP's
`Compress` treats exactly 0 as unset and clamps any other override; the
level defaults are 60/75/90 for JPEG and WebP, and PNG maps
Low/Medium/High to the BestSpeed/DefaultCompression/BestCompression effort
levels rather than a quality value. -/
theorem resolveQuality_amended :
    (∀ q lvl : Int, 0 < q → resolveJPEGQuality q lvl = min 100 q) ∧
      (∀ q lvl : Int, q ≤ 0 → resolveJPEGQuality q lvl = toJPEGQuality lvl) ∧
      (toJPEGQuality CompressionLow = 60 ∧ toJPEGQuality CompressionMedium = 75 ∧
        toJPEGQuality CompressionHigh = 90) ∧
      (toPNGCompressionLevel CompressionLow = .bestSpeed ∧
        toPNGCompressionLevel CompressionMedium = .defaultCompression ∧
        toPNGCompressionLevel CompressionHigh = .bestCompression) ∧
      (∀ q lvl : Int, q ≠ 0 → resolveWebPCompressQuality q lvl = max 1 (min 100 q)) ∧
      (∀ lvl : Int, resolveWebPCompressQuality 0 lvl = toWebPQuality lvl) ∧
      (∀ q lvl : Int, 0 < q → resolveWebPConvertQuality q lvl = min 100 q) ∧
      (∀ q lvl : Int, q ≤ 0 → resolveWebPConvertQuality q lvl = toWebPQuality lvl) ∧
      (toWebPQuality CompressionLow = 60 ∧ toWebPQuality CompressionMedium = 75 ∧
        toWebPQuality CompressionHigh = 90) := by
  refine ⟨?_, ?_, by decide, by decide, ?_, ?_, ?_, ?_, by decide⟩
  · intro q lvl h
    simp only [resolveJPEGQuality]
    split_ifs <;> omega
  · intro q lvl h
    simp only [resolveJPEGQuality, toJPEGQuality]
    split_ifs <;> omega
  · intro q lvl h
    simp only [resolveWebPCompressQuality, clampWebPQuality]
    split_ifs <;> omega
  · intro lvl
    simp [resolveWebPCompressQuality]
  · intro q lvl h
    simp only [resolveWebPConvertQuality, clampWebPQuality]
    split_ifs <;> omega
  · intro q lvl h
    simp only [resolveWebPConvertQuality, clampWebPQuality, toWebPQuality]
    split_ifs <;> omega

/-- Witness for the amended C7 at concrete inputs: an over-range override
is clamped, non-positive overrides fall back to the level default for JPEG
and WebP `Convert`, and WebP `Compress` clamps a negative override to 1. -/
theorem resolveQuality_amended_witness :
    resolveJPEGQuality 150 CompressionLow = 100 ∧
      resolveJPEGQuality (-10) CompressionHigh = 90 ∧
      resolveWebPCompressQuality (-10) CompressionHigh = 1 ∧
      resolveWebPConvertQuality (-10) CompressionHigh = 90 := by
  obtain ⟨hj_pos, hj_nonpos, _, _, hwc_ne, _, _, hwv_nonpos, _⟩ := resolveQuality_amended
  refine ⟨(hj_pos 150 CompressionLow (by decide)).trans (by decide),
    (hj_nonpos (-10) CompressionHigh (by decide)).trans (by decide),
    (hwc_ne (-10) CompressionHigh (by decide)).trans (by decide),
    (hwv_nonpos (-10) CompressionHigh (by decide)).trans (by decide)⟩

/-! ## Format detection (claim C8) -/

/-- Claim C8 failing-input evaluation: the source `detectFormatFromPath`
rejects `.webp` with an unsupported-format error (although the repository's
own batch tests expect `FormatWEBP`), while `.jpg`/`.jpeg`/`.png` are
recognized case-insensitively and other extensions get the deterministic
error value. -/
theorem detectFormatFromPath_webp_rejected :
    detectFormatFromPath "photo.webp".toList
        = .error (.unsupportedExt ".webp".toList) ∧
      detectFormatFromPath "photo.JPG".toList = .ok .jpeg ∧
      detectFormatFromPath "photo.jpeg".toList = .ok .jpeg ∧
      detectFormatFromPath "a/b/photo.PnG".toList = .ok .png ∧
      detectFormatFromPath "notes.txt".toList
        = .error (.unsupportedExt ".txt".toList) := by
  decide

/-! ## Scanner correctness (claim C9) -/

/-- `filepath.Rel` undoes `filepath.Join` on clean paths. -/
theorem pathRel_pathJoin (base rel : List Char) :
    pathRel base (pathJoin base rel) = rel := by
  unfold pathRel pathJoin
  have h : base ++ '/' :: rel = (base ++ ['/']) ++ rel := by simp
  rw [h, show base.length + 1 = (base ++ ['/']).length by simp, List.drop_left]

/-- The scanner's fold accumulates exactly the recognized files, each
re-rooted under the output directory. -/
theorem scanFold_filterMap (inputDir outputDir : List Char) (opts : CompressOptions) :
    ∀ (walk : List WalkEntry) (acc : List BatchItem),
      walk.foldl
        (fun (items : List BatchItem) (e : WalkEntry) =>
          if e.isDir then items
          else
            let path := pathJoin inputDir e.rel
            match detectFormatFromPath path with
            | .error _ => items
            | .ok _ =>
              let relPath := pathRel inputDir path
              items ++ [⟨path, pathJoin outputDir relPath, opts⟩]) acc
        = acc ++ walk.filterMap (scanItemOf inputDir outputDir opts) := by
  intro walk
  induction walk with
  | nil => intro acc; simp
  | cons e rest ih =>
    intro acc
    rw [List.foldl_cons, List.filterMap_cons, ih]
    cases hd : e.isDir with
    | true => simp [scanItemOf, hd]
    | false =>
      cases hdet : detectFormatFromPath (pathJoin inputDir e.rel) with
      | error err => simp [scanItemOf, hd, hdet]
      | ok f => simp [scanItemOf, hd, hdet, pathRel_pathJoin]

/-- Claim C9: a scan over an accessible root returns — with no error — one
item per recognized file, in walk order, each output path being the file's
relative path re-rooted under the output root (directories and files with
unrecognized extensions contribute nothing); in particular a walk with no
recognized file yields the empty item list with no error. -/
theorem scanDirectory_emits_recognized_files (inputDir outputDir : List Char)
    (walk : List WalkEntry) (opts : CompressOptions) :
    scanDirectory true inputDir outputDir walk opts
        = .ok (walk.filterMap (scanItemOf inputDir outputDir opts)) ∧
      (walk.filterMap (scanItemOf inputDir outputDir opts) = [] →
        scanDirectory true inputDir outputDir walk opts = .ok []) := by
  have hmain : scanDirectory true inputDir outputDir walk opts
      = .ok (walk.filterMap (scanItemOf inputDir outputDir opts)) := by
    unfold scanDirectory
    rw [if_neg (by simp)]
    rw [scanFold_filterMap inputDir outputDir opts walk []]
    rfl
  exact ⟨hmain, fun hz => by rw [hmain, hz]⟩

/-- Witness for C9 on the spec's example walk `{a.jpg, b.png, c.txt,
sub (dir), sub/d.jpeg}`: three items, `c.txt` absent, and `sub/d.jpeg`'s
output path keeps the `sub/` segment under the output root; a walk with
only unrecognized files yields the empty list. -/
theorem scanDirectory_emits_recognized_files_witness :
    scanDirectory true "in".toList "out".toList
        [⟨"a.jpg".toList, false⟩, ⟨"b.png".toList, false⟩, ⟨"c.txt".toList, false⟩,
          ⟨"sub".toList, true⟩, ⟨"sub/d.jpeg".toList, false⟩] ⟨0, 1, false, 0⟩
        = .ok [⟨"in/a.jpg".toList, "out/a.jpg".toList, ⟨0, 1, false, 0⟩⟩,
            ⟨"in/b.png".toList, "out/b.png".toList, ⟨0, 1, false, 0⟩⟩,
            ⟨"in/sub/d.jpeg".toList, "out/sub/d.jpeg".toList, ⟨0, 1, false, 0⟩⟩] ∧
      scanDirectory true "in".toList "out".toList [⟨"c.txt".toList, false⟩]
          ⟨0, 1, false, 0⟩ = .ok [] := by
  constructor
  · rw [(scanDirectory_emits_recognized_files "in".toList "out".toList
      [⟨"a.jpg".toList, false⟩, ⟨"b.png".toList, false⟩, ⟨"c.txt".toList, false⟩,
        ⟨"sub".toList, true⟩, ⟨"sub/d.jpeg".toList, false⟩] ⟨0, 1, false, 0⟩).1]
    decide
  · exact (scanDirectory_emits_recognized_files "in".toList "out".toList
      [⟨"c.txt".toList, false⟩] ⟨0, 1, false, 0⟩).2 (by decide)

end Loki
